import Mathlib

/-!
Verification of the visit-dashboard data pipeline (`build_dashboard.py`).

The development shallowly embeds the data-cleaning and aggregation core of
the source: the name normalizer (`normalize_name`, source lines 6-10), the
custom time parser (`parse_custom_time`, lines 12-27), the duration
calculator (`calculate_duration`, lines 48-56), and the row filter /
grouping / aggregation steps of `generate_dashboard` (lines 29-123).

Modelling conventions:
* raw spreadsheet cells are `Option` values (`none` models a missing /
  NaN cell, i.e. `pd.isna` being true);
* Python strings are Lean `String`s, processed as `List Char`;
* the Unicode NFKD decomposition used by the source is modelled by a
  character table (`nfkdChar`) that is faithful to the real Unicode data
  on every character appearing in this development; characters outside
  the table decompose to themselves, which is accurate for all characters
  without a decomposition mapping;
* Python's ASCII-only `str.lower`/`str.upper`/`str.title` case mapping is
  modelled by `pyLower`/`pyUpper`/`pyTitleAux` (the strings they are
  applied to in the source are pure ASCII at that point, or the cased
  characters that matter are ASCII);
* machine floats do not occur: the only fractional value (a visit
  duration in minutes) is an exact ratio of integers, modelled by `ℚ`.
-/

/-- Python whitespace test: the full class of `str.isspace` / `str.strip` /
regex `\s` (CPython's `Py_UNICODE_ISSPACE` table): U+0009 to U+000D, the
separators U+001C to U+001F, the space U+0020, NEL U+0085, NBSP U+00A0,
Ogham space U+1680, the U+2000 to U+200A spaces, the line and paragraph
separators U+2028 and U+2029, the narrow no-break space U+202F, the
mathematical space U+205F and the ideographic space U+3000. -/
def pyIsSpace (c : Char) : Bool :=
  (9 ≤ c.toNat ∧ c.toNat ≤ 13) || (28 ≤ c.toNat ∧ c.toNat ≤ 32) ||
  c.toNat = 133 || c.toNat = 160 || c.toNat = 5760 ||
  (8192 ≤ c.toNat ∧ c.toNat ≤ 8202) || c.toNat = 8232 || c.toNat = 8233 ||
  c.toNat = 8239 || c.toNat = 8287 || c.toNat = 12288

/-- ASCII test (`encode('ASCII', ...)` keeps exactly these characters). -/
def isAsciiChar (c : Char) : Bool := c.toNat ≤ 127

/-- ASCII lower-casing, modelling Python `str.lower` on ASCII letters. -/
def pyLower (c : Char) : Char :=
  if 65 ≤ c.toNat ∧ c.toNat ≤ 90 then Char.ofNat (c.toNat + 32) else c

/-- ASCII upper-casing, modelling Python `str.upper` on ASCII letters. -/
def pyUpper (c : Char) : Char :=
  if 97 ≤ c.toNat ∧ c.toNat ≤ 122 then Char.ofNat (c.toNat - 32) else c

/-- Cased-character test (ASCII letters), the word-boundary notion used by
Python `str.title`. -/
def pyCased (c : Char) : Bool :=
  (65 ≤ c.toNat ∧ c.toNat ≤ 90) || (97 ≤ c.toNat ∧ c.toNat ≤ 122)

/-- One step of Python `str.title`: a character is lower-cased when the
previous character was cased and title-cased (upper-cased, for ASCII)
otherwise. -/
def titleChar (prevCased : Bool) (c : Char) : Char :=
  if prevCased then pyLower c else pyUpper c

/-- Python `str.title` as a left-to-right scan carrying the casedness of the
previous character (`false` at the start of the string). -/
def pyTitleAux : Bool → List Char → List Char
  | _, [] => []
  | b, c :: cs => titleChar b c :: pyTitleAux (pyCased c) cs

/-- Python `str.title` (source line 10 applies it after ASCII encoding, so the
ASCII case maps are exact there). -/
def pyTitle (cs : List Char) : List Char := pyTitleAux false cs

/-- Python `str.strip`: drop whitespace from both ends. -/
def pyStrip (cs : List Char) : List Char :=
  List.rdropWhile pyIsSpace (List.dropWhile pyIsSpace cs)

/-- Unicode NFKD decomposition of a single character, by table.  The table
lists the decompositions (faithful to the Unicode character database) of
the characters exercised in this development: accented Latin vowels and
enye decompose into the base letter followed by a combining mark, the
no-break spaces decompose to an ordinary space and the `'ﬁ'` ligature to
`"fi"` (compatibility mappings), and `'ø'` has no decomposition.
Characters outside the table decompose to themselves, which is accurate
exactly for characters without a decomposition mapping; any decomposable
character that a theorem exercises must appear in the table. -/
def nfkdChar (c : Char) : List Char :=
  if c = 'á' then ['a', '́'] else
  if c = 'é' then ['e', '́'] else
  if c = 'í' then ['i', '́'] else
  if c = 'ó' then ['o', '́'] else
  if c = 'ú' then ['u', '́'] else
  if c = 'Á' then ['A', '́'] else
  if c = 'É' then ['E', '́'] else
  if c = 'Í' then ['I', '́'] else
  if c = 'Ó' then ['O', '́'] else
  if c = 'Ú' then ['U', '́'] else
  if c = 'à' then ['a', '̀'] else
  if c = 'è' then ['e', '̀'] else
  if c = 'ì' then ['i', '̀'] else
  if c = 'ò' then ['o', '̀'] else
  if c = 'ù' then ['u', '̀'] else
  if c = 'ñ' then ['n', '̃'] else
  if c = 'Ñ' then ['N', '̃'] else
  if c = 'ü' then ['u', '̈'] else
  if c = 'ö' then ['o', '̈'] else
  if c = 'ä' then ['a', '̈'] else
  if c = 'ﬁ' then ['f', 'i'] else
  if c = ' ' then [' '] else
  if c = ' ' then [' '] else [c]

/-- Unicode NFKD decomposition of a character list
(`unicodedata.normalize('NFKD', s)`, source line 9). -/
def nfkdStr : List Char → List Char
  | [] => []
  | c :: cs => nfkdChar c ++ nfkdStr cs

/-- Python `bytes` round-trip `encode('ASCII', 'ignore').decode('ASCII')`
(source line 9): every non-ASCII character is discarded. -/
def asciiIgnore (cs : List Char) : List Char := cs.filter isAsciiChar

/-- Name normalizer, embedding `normalize_name` (source lines 6-10): a
missing value becomes the placeholder, otherwise the value (already coerced
to a string by `str(name)`, hence the `String` payload of the `Option`) is
NFKD-decomposed, stripped of all non-ASCII characters, stripped of
surrounding whitespace and title-cased. -/
def normalize_name : Option String → String
  | none => "Desconocido"
  | some s => String.mk (pyTitle (pyStrip (asciiIgnore (nfkdStr s.data))))

/-- Combining-mark test (the U+0300 to U+036F block, which covers every
combining mark in this development). -/
def isCombining (c : Char) : Bool := 768 ≤ c.toNat ∧ c.toNat ≤ 879

/-- Unicode canonical (NFD) decomposition of a single character, by table.
It differs from `nfkdChar` exactly on the compatibility mappings: the
no-break spaces and the `'ﬁ'` ligature have no canonical decomposition
and stay themselves. -/
def nfdChar (c : Char) : List Char :=
  if c = 'á' then ['a', '́'] else
  if c = 'é' then ['e', '́'] else
  if c = 'í' then ['i', '́'] else
  if c = 'ó' then ['o', '́'] else
  if c = 'ú' then ['u', '́'] else
  if c = 'Á' then ['A', '́'] else
  if c = 'É' then ['E', '́'] else
  if c = 'Í' then ['I', '́'] else
  if c = 'Ó' then ['O', '́'] else
  if c = 'Ú' then ['U', '́'] else
  if c = 'à' then ['a', '̀'] else
  if c = 'è' then ['e', '̀'] else
  if c = 'ì' then ['i', '̀'] else
  if c = 'ò' then ['o', '̀'] else
  if c = 'ù' then ['u', '̀'] else
  if c = 'ñ' then ['n', '̃'] else
  if c = 'Ñ' then ['N', '̃'] else
  if c = 'ü' then ['u', '̈'] else
  if c = 'ö' then ['o', '̈'] else
  if c = 'ä' then ['a', '̈'] else [c]

/-- Canonical decomposition of a character list. -/
def nfdStr : List Char → List Char
  | [] => []
  | c :: cs => nfdChar c ++ nfdStr cs

/-- Title-casing as the specification words it: each whitespace-separated
token has its first character upper-cased and the remainder lower-cased.
The Boolean state records whether the scan is at the start of a token. -/
def specTitleAux : Bool → List Char → List Char
  | _, [] => []
  | atStart, c :: cs =>
    if pyIsSpace c then c :: specTitleAux true cs
    else (if atStart then pyUpper c else pyLower c) :: specTitleAux false cs

/-- Name normalizer as described by the specification's words (for
comparison with the embedded `normalize_name`): canonical decomposition
followed by stripping non-ASCII combining marks (and no other characters),
surrounding whitespace trimmed, and each whitespace-separated token
title-cased. -/
def normalize_name_spec : Option String → String
  | none => "Desconocido"
  | some s =>
    String.mk (specTitleAux true (pyStrip ((nfdStr s.data).filter (fun c => !isCombining c))))

/-- Title-casing by maximal letter runs: the first letter of each run is
upper-cased and the rest lower-cased, with a new run starting after any
non-letter character.  `amendedTitle` scans outside a run. -/
def amendedTitle : List Char → List Char
  | [] => []
  | c :: cs => if pyCased c then pyUpper c :: amendedInWord cs else pyUpper c :: amendedTitle cs
where
  /-- Scan inside a letter run: letters are lower-cased until the run ends. -/
  amendedInWord : List Char → List Char
  | [] => []
  | c :: cs => if pyCased c then pyLower c :: amendedInWord cs else pyLower c :: amendedTitle cs

/-- Name normalizer as the amended claim describes it: NFKD decomposition,
removal of every non-ASCII character, whitespace trim, and letter-run
title-casing (a letter is upper-cased exactly when not preceded by a
letter). -/
def normalize_name_amended : Option String → String
  | none => "Desconocido"
  | some s => String.mk (amendedTitle (pyStrip (asciiIgnore (nfkdStr s.data))))


/-- Time-of-day value produced by the time parser (`datetime.time` with whole
seconds; the format `%I:%M:%S %p` never produces fractions). -/
structure PyTime where
  hour : Nat
  minute : Nat
  second : Nat
deriving DecidableEq

/-- Digit value of an ASCII digit character. -/
def digitVal (c : Char) : Nat := c.toNat - 48

/-- ASCII digit test. -/
def isDigitChar (c : Char) : Bool := 48 ≤ c.toNat ∧ c.toNat ≤ 57

/-- Replace every occurrence of a character (Python `str.replace` with a
single-character pattern, source line 17). -/
def replaceChar (a b : Char) (cs : List Char) : List Char :=
  cs.map (fun c => if c = a then b else c)

/-- Python `"… a m …".replace(" a m", " am")` (source line 23): left-to-right
non-overlapping replacement of the four-character pattern. -/
def replaceAM : List Char → List Char
  | ' ' :: 'a' :: ' ' :: 'm' :: rest => ' ' :: 'a' :: 'm' :: replaceAM rest
  | c :: rest => c :: replaceAM rest
  | [] => []

/-- Python `"… p m …".replace(" p m", " pm")` (source line 23). -/
def replacePM : List Char → List Char
  | ' ' :: 'p' :: ' ' :: 'm' :: rest => ' ' :: 'p' :: 'm' :: replacePM rest
  | c :: rest => c :: replacePM rest
  | [] => []

/-- Match the `%I` directive of `strptime`: the regular expression
alternation `1[0-2]|0[1-9]|[1-9]`, returning the 12-hour value and the rest
of the input.  The alternation is ordered exactly as in CPython's
`_strptime` table; a lone `0` hour does not match. -/
def matchHour12 : List Char → Option (Nat × List Char)
  | '1' :: rest =>
    match rest with
    | c :: rest2 =>
      if 48 ≤ c.toNat ∧ c.toNat ≤ 50 then some (10 + digitVal c, rest2)
      else some (1, c :: rest2)
    | [] => some (1, [])
  | '0' :: c :: rest =>
    if 49 ≤ c.toNat ∧ c.toNat ≤ 57 then some (digitVal c, rest) else none
  | c :: rest =>
    if 50 ≤ c.toNat ∧ c.toNat ≤ 57 then some (digitVal c, rest) else none
  | [] => none

/-- Match the `%M` directive: the alternation `[0-5]\d|\d`. -/
def matchMinute : List Char → Option (Nat × List Char)
  | c1 :: c2 :: rest =>
    if (48 ≤ c1.toNat ∧ c1.toNat ≤ 53) ∧ isDigitChar c2 then
      some (10 * digitVal c1 + digitVal c2, rest)
    else if isDigitChar c1 then some (digitVal c1, c2 :: rest)
    else none
  | [c1] => if isDigitChar c1 then some (digitVal c1, []) else none
  | [] => none

/-- Match the `%S` directive: the alternation `6[0-1]|[0-5]\d|\d` (CPython
admits the leap-second values 60 and 61 at the matching stage). -/
def matchSecond : List Char → Option (Nat × List Char)
  | '6' :: c :: rest =>
    if c.toNat = 48 ∨ c.toNat = 49 then some (60 + digitVal c, rest)
    else some (6, c :: rest)
  | c1 :: c2 :: rest =>
    if (48 ≤ c1.toNat ∧ c1.toNat ≤ 53) ∧ isDigitChar c2 then
      some (10 * digitVal c1 + digitVal c2, rest)
    else if isDigitChar c1 then some (digitVal c1, c2 :: rest)
    else none
  | [c1] => if isDigitChar c1 then some (digitVal c1, []) else none
  | [] => none

/-- Match the whitespace separating `%S` from `%p` (a literal space in the
format becomes the regular expression `\s+`). -/
def matchSpaces : List Char → Option (List Char)
  | c :: rest => if pyIsSpace c then some (rest.dropWhile pyIsSpace) else none
  | [] => none

/-- Match the `%p` directive against the already lower-cased input; the whole
remaining input must be consumed, because `strptime` rejects trailing
characters.  Returns `true` for `pm`. -/
def matchMeridiem : List Char → Option Bool
  | ['a', 'm'] => some false
  | ['p', 'm'] => some true
  | _ => none

/-- Conversion of a matched 12-hour time to a `datetime.time`, embedding the
`%I`/`%p` combination rule of `_strptime` (12 am is hour 0, 12 pm is hour
12) and the `datetime.time` constructor's rejection of seconds ≥ 60 (the
resulting `ValueError` is caught by the source and becomes `None`). -/
def buildTime (h12 minute second : Nat) (isPM : Bool) : Option PyTime :=
  if 60 ≤ second then none
  else
    let hour := if isPM then (if h12 = 12 then 12 else h12 + 12)
                else (if h12 = 12 then 0 else h12)
    some ⟨hour, minute, second⟩

/-- Match the full `strptime` format `'%I:%M:%S %p'` against a normalized
input. -/
def matchTimeFormat (cs : List Char) : Option PyTime :=
  match matchHour12 cs with
  | none => none
  | some (h, r1) =>
    match r1 with
    | ':' :: r2 =>
      match matchMinute r2 with
      | none => none
      | some (m, r3) =>
        match r3 with
        | ':' :: r4 =>
          match matchSecond r4 with
          | none => none
          | some (s, r5) =>
            match matchSpaces r5 with
            | none => none
            | some r6 =>
              match matchMeridiem r6 with
              | none => none
              | some isPM => buildTime h m s isPM
        | _ => none
    | _ => none

/-- Time parser, embedding `parse_custom_time` (source lines 12-27): a
missing cell gives `none`; otherwise the string is stripped, the no-break
spaces are replaced by ordinary spaces, the string is lower-cased, periods
are removed, the spaced meridiem forms are compacted, and the result is
parsed with `strptime '%I:%M:%S %p'`, any failure giving `none`. -/
def parse_custom_time : Option String → Option PyTime
  | none => none
  | some s =>
    let cs := pyStrip s.data
    let cs := replaceChar ' ' ' ' (replaceChar ' ' ' ' cs)
    let cs := (cs.map pyLower).filter (fun c => c ≠ '.')
    let cs := replacePM (replaceAM cs)
    matchTimeFormat cs

/-- Seconds since midnight of a parsed time (the value of
`datetime.datetime.combine(dummy_date, t)` up to the shared dummy date). -/
def PyTime.totalSeconds (t : PyTime) : Nat :=
  t.hour * 3600 + t.minute * 60 + t.second

/-- Duration calculator, embedding `calculate_duration` (source lines
48-56): both raw times are parsed; if either is missing or unparseable the
result is `None`, otherwise the elapsed time in minutes, adding 24 hours to
the checkout when it precedes the check-in (midnight rollover,
`if dt2 < dt1`). -/
def calculate_duration (ingreso salida : Option String) : Option ℚ :=
  match parse_custom_time ingreso, parse_custom_time salida with
  | some t1, some t2 =>
    let s1 := t1.totalSeconds
    let s2 := t2.totalSeconds
    let s2 := if s2 < s1 then s2 + 86400 else s2
    some (((s2 - s1 : ℕ) : ℚ) / 60)
  | _, _ => none



/-- Calendar date, the value of a successfully parsed `Fecha de visita` cell
(`pd.to_datetime` result). -/
structure Date where
  year : Nat
  month : Nat
  day : Nat
deriving DecidableEq

/-- Chronological sort key of a calendar date. -/
def Date.key (d : Date) : Nat := d.year * 10000 + d.month * 100 + d.day

/-- Raw spreadsheet row (one `VisitRecord`).  The `fecha` field holds the
result of the permissive `pd.to_datetime(…, errors='coerce')` parse of the
raw cell (source line 35): `none` is `NaT`, covering both a missing cell and
an unparseable one.  The check-in and check-out time columns are not
represented: no claim in this development depends on the duration column of
the frame. -/
structure Raw where
  medico : Option String
  fecha : Option Date
  estatus : Option String
  comentario : Option String
  foto : Option String
deriving DecidableEq

/-- Input row-set together with its schema: which optional columns exist.
The two mandatory columns (`Medico`, `Fecha de visita`) are always
present. -/
structure Frame where
  rows : List Raw
  hasEstatus : Bool
  hasComentario : Bool
  hasFoto : Bool
deriving DecidableEq

/-- Cleaned row (one `CleanedVisit`): normalized doctor name, a present
visit date, and the optional payload cells.  A cell of an absent column is
`none` (respectively `""` for the photo column, which source lines 72-75
always materialize as a string column). -/
structure CleanRow where
  medico : String
  fecha : Date
  estatus : Option String
  comentario : Option String
  foto : String
deriving DecidableEq

/-- Cleaning and filtering of one raw row (source lines 34-39 and 72-75):
the doctor name is normalized, rows whose date did not parse are dropped
(`dropna`), rows dated before 2024 are dropped, and the photo cell is
defaulted to the empty string and stripped. -/
def cleanRow (f : Frame) (r : Raw) : Option CleanRow :=
  match r.fecha with
  | none => none
  | some d =>
    if 2024 ≤ d.year then
      some { medico := normalize_name r.medico
             fecha := d
             estatus := if f.hasEstatus then r.estatus else none
             comentario := if f.hasComentario then r.comentario else none
             foto := if f.hasFoto then
                       (match r.foto with
                        | none => ""
                        | some s => String.mk (pyStrip s.data))
                     else "" }
    else none

/-- Cleaned row-set (the dataframe after source line 39, with the photo
column of lines 72-75). -/
def cleanRows (f : Frame) : List CleanRow := f.rows.filterMap (cleanRow f)

/-- Lexicographic code-point comparison of strings (Python's string order,
used by pandas when sorting group keys). -/
def strLeChars : List Char → List Char → Bool
  | [], _ => true
  | _ :: _, [] => false
  | a :: as, b :: bs =>
    if a.toNat < b.toNat then true
    else if b.toNat < a.toNat then false
    else strLeChars as bs

/-- Group keys of `df.groupby('Medico')` (source line 85): the distinct
doctor names in ascending lexicographic order (pandas sorts group keys). -/
def doctorNames (df : List CleanRow) : List String :=
  List.insertionSort (fun a b => strLeChars a.data b.data = true)
    (df.map (fun r => r.medico)).dedup

/-- Rows of one doctor's group, in original row order (pandas `groupby`
preserves the within-group order). -/
def groupOf (df : List CleanRow) (n : String) : List CleanRow :=
  df.filter (fun r => r.medico = n)

/-- Lower-cased status cell (`group['Estatus'].str.lower()`, a missing cell
staying missing). -/
def lowStatus (r : CleanRow) : Option String :=
  r.estatus.map (fun s => String.mk (s.data.map pyLower))

/-- Rows of a group whose status is the canonical visited string,
case-insensitively (source line 89). -/
def visitedCount (g : List CleanRow) : Nat :=
  (g.filter (fun r => lowStatus r = some "visitado")).length

/-- Rows of a group whose status is the canonical not-visited string,
case-insensitively (source line 90). -/
def notVisitedCount (g : List CleanRow) : Nat :=
  (g.filter (fun r => lowStatus r = some "no visitado")).length

/-- History of a group: the group rows sorted by visit date descending
(source line 94, `sort_values('Fecha de visita', ascending=False)`).
pandas computes an ascending argsort and reverses it.  For groups of fewer
than 17 rows numpy's default `quicksort` kind is a stable insertion sort,
so this definition (the reverse of a stable ascending sort) is exact there;
for larger groups the introsort partitioning permutes equal-date rows in an
unspecified way, so only size-conditioned tie-order statements and
order-insensitive statements (permutation, descending sortedness) are made
about this definition. -/
def sortHistory (g : List CleanRow) : List CleanRow :=
  (List.insertionSort (fun a b => a.fecha.key ≤ b.fecha.key) g).reverse

/-- Latest visit date of a group (`group['Fecha de visita'].max()`, source
line 92; groups are never empty so the default is irrelevant). -/
def lastVisit (g : List CleanRow) : Date :=
  g.foldl (fun acc r => if acc.key < r.fecha.key then r.fecha else acc) ⟨0, 0, 0⟩

/-- Per-doctor aggregate (one entry of `doctor_stats`, source lines
98-105). -/
structure DocStat where
  name : String
  visits : Nat
  visited_count : Nat
  not_visited_count : Nat
  last_visit : Date
  history : List CleanRow
deriving DecidableEq

/-- Aggregate of one doctor group (the body of the loop at source lines
85-105, excluding the column selection of line 94 that is modelled in
`doctorStats`). -/
def docStatOf (f : Frame) (df : List CleanRow) (n : String) : DocStat :=
  let g := groupOf df n
  { name := n
    visits := g.length
    visited_count := if f.hasEstatus then visitedCount g else 0
    not_visited_count := if f.hasEstatus then notVisitedCount g else 0
    last_visit := lastVisit g
    history := sortHistory g }

/-- Per-doctor statistics of the whole frame (source lines 84-105).  For
each group, line 94 selects the columns `Fecha de visita`, `Comentario`,
`Estatus` and `Foto` from the group unconditionally; when the `Comentario`
or `Estatus` column is absent from the schema this raises a `KeyError`
(`Foto` and `Fecha de visita` always exist at this point).  The exception
propagates out of `generate_dashboard`'s body, so the computation is
`Except`-valued. -/
def doctorStatsAux (f : Frame) (df : List CleanRow) : List String → Except String (List DocStat)
  | [] => Except.ok []
  | n :: ns =>
    if f.hasComentario && f.hasEstatus then
      match doctorStatsAux f df ns with
      | Except.error e => Except.error e
      | Except.ok rest => Except.ok (docStatOf f df n :: rest)
    else Except.error "KeyError: columns not in index"

/-- Per-doctor statistics of the whole frame: the fold of `doctorStatsAux`
over the sorted group keys. -/
def doctorStats (f : Frame) (df : List CleanRow) : Except String (List DocStat) :=
  doctorStatsAux f df (doctorNames df)

/-- Stable descending sort of the doctor aggregates by total visits
(source line 107, `doctor_stats.sort(key=…, reverse=True)`; Python's sort
is stable, and a stable descending sort keeps tied elements in their
original order). -/
def sortStatsDesc (stats : List DocStat) : List DocStat :=
  List.insertionSort (fun a b => b.visits ≤ a.visits) stats

/-- Status distribution (`df['Estatus'].value_counts()`, source line 118):
missing cells are dropped, the distinct present values are counted, and the
pairs are sorted by count descending.  The relative order of equal counts
is not depended upon by any claim. -/
def statusCountPairs (df : List CleanRow) : List (String × Nat) :=
  let vals := df.filterMap (fun r => r.estatus)
  List.insertionSort (fun a b => b.2 ≤ a.2)
    (vals.dedup.map (fun v => (v, vals.count v)))

/-- Sum encoding of an `Except` value, used to derive decidable equality. -/
def exceptToSum {ε α : Type} : Except ε α → ε ⊕ α
  | Except.error e => Sum.inl e
  | Except.ok a => Sum.inr a

instance {ε α : Type} [DecidableEq ε] [DecidableEq α] : DecidableEq (Except ε α) :=
  fun x y => decidable_of_iff (exceptToSum x = exceptToSum y)
    (Function.Injective.eq_iff (by
      intro a b h
      cases a <;> cases b <;> simp [exceptToSum] at h <;> simp [h]))

/-- Report structure: the fields of the serialized aggregate (source lines
126-140) that the claims address. -/
structure Report where
  total_visits : Nat
  doctor_stats : List DocStat
  top_doctors : List DocStat
  status_labels : List String
  status_data : List Nat
deriving DecidableEq

/-- Dashboard generation core, embedding `generate_dashboard` (source lines
29-140) on the fields the claims address: cleaning and filtering, the
per-doctor aggregation (whose column selection can raise, hence the
`Except`), the ranking with its top-10 truncation, the total-visit count
and the status distribution (empty when the status column is absent). -/
def generateDashboard (f : Frame) : Except String Report :=
  let df := cleanRows f
  match doctorStats f df with
  | Except.error e => Except.error e
  | Except.ok stats =>
    let sorted := sortStatsDesc stats
    Except.ok
      { total_visits := df.length
        doctor_stats := sorted
        top_doctors := sorted.take 10
        status_labels := if f.hasEstatus then (statusCountPairs df).map (fun p => p.1) else []
        status_data := if f.hasEstatus then (statusCountPairs df).map (fun p => p.2) else [] }

/-- Raw row with a present name, date and status cell and nothing else
(the shape used by the concrete test frames below). -/
def mkRow (n st : String) (d : Date) : Raw :=
  { medico := some n, fecha := some d, estatus := some st, comentario := none, foto := none }

/-- Frame with one valid row whose schema lacks the status column. -/
def noStatusFrame : Frame :=
  { rows := [{ medico := some "Ana", fecha := some ⟨2024, 5, 1⟩, estatus := none,
               comentario := some "ok", foto := none }],
    hasEstatus := false, hasComentario := true, hasFoto := false }

/-- Frame realizing the specification's aggregator example: three visits for
Dr. A (two visited, one not visited, in mixed letter case) and one visited
visit for Dr. B. -/
def drABFrame : Frame :=
  { rows := [mkRow "Dr. A" "Visitado" ⟨2024, 1, 1⟩,
             mkRow "Dr. B" "visitado" ⟨2024, 1, 2⟩,
             mkRow "Dr. A" "No Visitado" ⟨2024, 1, 3⟩,
             mkRow "Dr. A" "visitado" ⟨2024, 1, 4⟩],
    hasEstatus := true, hasComentario := true, hasFoto := false }

/-- Frame with a status column in which one of the two rows has a missing
status cell. -/
def missingStatusCellFrame : Frame :=
  { rows := [mkRow "Ana" "Visitado" ⟨2024, 1, 1⟩,
             { medico := some "Ana", fecha := some ⟨2024, 1, 2⟩, estatus := none,
               comentario := none, foto := none }],
    hasEstatus := true, hasComentario := true, hasFoto := false }

/-- Two cleaned rows of the same doctor on the same date, distinguished by
their comment, in the order they appear in the input. -/
def tieRow1 : CleanRow :=
  { medico := "Ana", fecha := ⟨2024, 3, 3⟩, estatus := none, comentario := some "first", foto := "" }

/-- Second of the two equal-date rows. -/
def tieRow2 : CleanRow :=
  { medico := "Ana", fecha := ⟨2024, 3, 3⟩, estatus := none, comentario := some "second", foto := "" }

/-- Frame exercising the date filter: one 2023 row, one 2024 row, one 2025
row, one row with an unparseable date. -/
def filterFrame : Frame :=
  { rows := [mkRow "Ana" "x" ⟨2023, 6, 1⟩,
             mkRow "Ana" "x" ⟨2024, 6, 1⟩,
             mkRow "Ana" "x" ⟨2025, 6, 1⟩,
             { medico := some "Ana", fecha := none, estatus := none,
               comentario := none, foto := none }],
    hasEstatus := true, hasComentario := true, hasFoto := false }

/-- Frame with full schema and no rows. -/
def emptyStatusFrame : Frame :=
  { rows := [], hasEstatus := true, hasComentario := true, hasFoto := false }

/-- Report produced for an empty row-set with full schema. -/
def emptyReport : Report :=
  { total_visits := 0, doctor_stats := [], top_doctors := [],
    status_labels := [], status_data := [] }

theorem charToNat_ofNat_of_lt {n : Nat} (h : n < 55296) : (Char.ofNat n).toNat = n := by
  unfold Char.ofNat
  rw [dif_pos (Or.inl h)]
  rfl

theorem charEq_of_toNat_eq {a b : Char} (h : a.toNat = b.toNat) : a = b := by
  have h2 := congrArg Char.ofNat h
  rwa [Char.ofNat_toNat, Char.ofNat_toNat] at h2

theorem toNat_pyLower (c : Char) :
    (pyLower c).toNat = if 65 ≤ c.toNat ∧ c.toNat ≤ 90 then c.toNat + 32 else c.toNat := by
  by_cases h : 65 ≤ c.toNat ∧ c.toNat ≤ 90
  · simp only [pyLower, if_pos h]
    exact charToNat_ofNat_of_lt (by omega)
  · simp only [pyLower, if_neg h]

theorem toNat_pyUpper (c : Char) :
    (pyUpper c).toNat = if 97 ≤ c.toNat ∧ c.toNat ≤ 122 then c.toNat - 32 else c.toNat := by
  by_cases h : 97 ≤ c.toNat ∧ c.toNat ≤ 122
  · simp only [pyUpper, if_pos h]
    exact charToNat_ofNat_of_lt (by omega)
  · simp only [pyUpper, if_neg h]

theorem pyLower_pyLower (c : Char) : pyLower (pyLower c) = pyLower c := by
  by_cases h : 65 ≤ c.toNat ∧ c.toNat ≤ 90
  · have hy : (pyLower c).toNat = c.toNat + 32 := by rw [toNat_pyLower, if_pos h]
    show (if _ then _ else pyLower c) = pyLower c
    rw [if_neg (by omega)]
  · have hc : pyLower c = c := by simp only [pyLower, if_neg h]
    rw [hc, hc]

theorem pyUpper_pyUpper (c : Char) : pyUpper (pyUpper c) = pyUpper c := by
  by_cases h : 97 ≤ c.toNat ∧ c.toNat ≤ 122
  · have hy : (pyUpper c).toNat = c.toNat - 32 := by rw [toNat_pyUpper, if_pos h]
    show (if _ then _ else pyUpper c) = pyUpper c
    rw [if_neg (by omega)]
  · have hc : pyUpper c = c := by simp only [pyUpper, if_neg h]
    rw [hc, hc]

theorem pyCased_pyLower (c : Char) : pyCased (pyLower c) = pyCased c := by
  rw [Bool.eq_iff_iff]
  simp only [pyCased, Bool.or_eq_true, decide_eq_true_eq, toNat_pyLower]
  split <;> omega

theorem pyCased_pyUpper (c : Char) : pyCased (pyUpper c) = pyCased c := by
  rw [Bool.eq_iff_iff]
  simp only [pyCased, Bool.or_eq_true, decide_eq_true_eq, toNat_pyUpper]
  split <;> omega

theorem pyIsSpace_pyLower (c : Char) : pyIsSpace (pyLower c) = pyIsSpace c := by
  rw [Bool.eq_iff_iff]
  simp only [pyIsSpace, Bool.or_eq_true, decide_eq_true_eq, toNat_pyLower]
  split <;> omega

theorem pyIsSpace_pyUpper (c : Char) : pyIsSpace (pyUpper c) = pyIsSpace c := by
  rw [Bool.eq_iff_iff]
  simp only [pyIsSpace, Bool.or_eq_true, decide_eq_true_eq, toNat_pyUpper]
  split <;> omega

theorem isAsciiChar_pyLower (c : Char) : isAsciiChar (pyLower c) = isAsciiChar c := by
  rw [Bool.eq_iff_iff]
  simp only [isAsciiChar, decide_eq_true_eq, toNat_pyLower]
  split <;> omega

theorem isAsciiChar_pyUpper (c : Char) : isAsciiChar (pyUpper c) = isAsciiChar c := by
  rw [Bool.eq_iff_iff]
  simp only [isAsciiChar, decide_eq_true_eq, toNat_pyUpper]
  split <;> omega

theorem titleChar_titleChar (b : Bool) (c : Char) :
    titleChar b (titleChar b c) = titleChar b c := by
  cases b <;> simp only [titleChar, if_pos, if_neg, Bool.false_eq_true, ite_false, ite_true,
    pyLower_pyLower, pyUpper_pyUpper]

theorem pyCased_titleChar (b : Bool) (c : Char) : pyCased (titleChar b c) = pyCased c := by
  cases b <;> simp only [titleChar, Bool.false_eq_true, ite_false, ite_true,
    pyCased_pyLower, pyCased_pyUpper]

theorem pyIsSpace_titleChar (b : Bool) (c : Char) : pyIsSpace (titleChar b c) = pyIsSpace c := by
  cases b <;> simp only [titleChar, Bool.false_eq_true, ite_false, ite_true,
    pyIsSpace_pyLower, pyIsSpace_pyUpper]

theorem isAsciiChar_titleChar (b : Bool) (c : Char) :
    isAsciiChar (titleChar b c) = isAsciiChar c := by
  cases b <;> simp only [titleChar, Bool.false_eq_true, ite_false, ite_true,
    isAsciiChar_pyLower, isAsciiChar_pyUpper]

theorem length_pyTitleAux (b : Bool) (l : List Char) :
    (pyTitleAux b l).length = l.length := by
  induction l generalizing b with
  | nil => rfl
  | cons c cs ih => simp [pyTitleAux, ih]

theorem pyTitleAux_idem (l : List Char) :
    ∀ b, pyTitleAux b (pyTitleAux b l) = pyTitleAux b l := by
  induction l with
  | nil => intro b; rfl
  | cons c cs ih =>
    intro b
    simp only [pyTitleAux, titleChar_titleChar, pyCased_titleChar]
    rw [ih]

theorem head?_pyTitleAux (b : Bool) (l : List Char) :
    (pyTitleAux b l).head? = l.head?.map (titleChar b) := by
  cases l <;> rfl

theorem getLast?_pyTitleAux (b : Bool) (l : List Char) :
    ∃ b2, (pyTitleAux b l).getLast? = l.getLast?.map (titleChar b2) := by
  induction l generalizing b with
  | nil => exact ⟨b, rfl⟩
  | cons c cs ih =>
    cases cs with
    | nil => exact ⟨b, by simp [pyTitleAux]⟩
    | cons d ds =>
      obtain ⟨b2, hb2⟩ := ih (pyCased c)
      refine ⟨b2, ?_⟩
      simp only [pyTitleAux] at hb2 ⊢
      rw [List.getLast?_cons_cons, List.getLast?_cons_cons, hb2]

theorem pyTitleAux_ascii (b : Bool) (l : List Char)
    (h : ∀ c ∈ l, isAsciiChar c = true) :
    ∀ c ∈ pyTitleAux b l, isAsciiChar c = true := by
  induction l generalizing b with
  | nil => intro c hc; cases hc
  | cons x xs ih =>
    intro c hc
    rcases List.mem_cons.mp hc with h1 | h2
    · subst h1
      rw [isAsciiChar_titleChar]
      exact h x (by simp)
    · exact ih (pyCased x) (fun d hd => h d (by simp [hd])) c h2

theorem dropWhile_eq_self_of_head {p : Char → Bool} {l : List Char}
    (h : ∀ c ∈ l.head?, p c = false) : l.dropWhile p = l := by
  cases l with
  | nil => rfl
  | cons c cs =>
    have hc : p c = false := h c rfl
    simp [List.dropWhile_cons, hc]

theorem head?_dropWhile (p : Char → Bool) (l : List Char) :
    ∀ c ∈ (l.dropWhile p).head?, p c = false := by
  induction l with
  | nil => intro c hc; cases hc
  | cons x xs ih =>
    intro c hc
    by_cases hp : p x
    · rw [List.dropWhile_cons, if_pos hp] at hc
      exact ih c hc
    · rw [List.dropWhile_cons, if_neg hp] at hc
      cases hc
      simpa using hp

theorem rdropWhile_eq_self_of_getLast {p : Char → Bool} {l : List Char}
    (h : ∀ c ∈ l.getLast?, p c = false) : l.rdropWhile p = l := by
  rw [List.rdropWhile, dropWhile_eq_self_of_head (by simpa using h), List.reverse_reverse]

theorem getLast?_rdropWhile (p : Char → Bool) (l : List Char) :
    ∀ c ∈ (l.rdropWhile p).getLast?, p c = false := by
  intro c hc
  rw [List.rdropWhile, List.getLast?_reverse] at hc
  exact head?_dropWhile p l.reverse c hc

theorem head?_of_isPrefix {l1 l2 : List Char} (h : l1 <+: l2) {c : Char}
    (hc : l1.head? = some c) : l2.head? = some c := by
  obtain ⟨t, ht⟩ := h
  subst ht
  cases l1 with
  | nil => cases hc
  | cons x xs => simpa using hc

theorem head?_pyStrip (l : List Char) :
    ∀ c ∈ (pyStrip l).head?, pyIsSpace c = false := by
  intro c hc
  have hpre : (List.dropWhile pyIsSpace l).rdropWhile pyIsSpace <+: List.dropWhile pyIsSpace l :=
    List.rdropWhile_prefix _ _
  exact head?_dropWhile pyIsSpace l c (head?_of_isPrefix hpre hc)

theorem getLast?_pyStrip (l : List Char) :
    ∀ c ∈ (pyStrip l).getLast?, pyIsSpace c = false :=
  getLast?_rdropWhile pyIsSpace _

theorem pyStrip_eq_self {l : List Char}
    (h1 : ∀ c ∈ l.head?, pyIsSpace c = false)
    (h2 : ∀ c ∈ l.getLast?, pyIsSpace c = false) : pyStrip l = l := by
  unfold pyStrip
  rw [dropWhile_eq_self_of_head h1, rdropWhile_eq_self_of_getLast h2]

theorem pyStrip_sublist (l : List Char) : List.Sublist (pyStrip l) l :=
  ((List.rdropWhile_prefix _ _).sublist).trans (List.dropWhile_sublist _)

theorem mem_dropWhile_of_not {p : Char → Bool} {l : List Char} {c : Char}
    (hc : c ∈ l) (hp : p c = false) : c ∈ l.dropWhile p := by
  induction l with
  | nil => cases hc
  | cons x xs ih =>
    by_cases hx : p x
    · rw [List.dropWhile_cons, if_pos hx]
      rcases List.mem_cons.mp hc with h1 | h2
      · subst h1; rw [hx] at hp; cases hp
      · exact ih h2
    · rw [List.dropWhile_cons, if_neg hx]
      exact hc

theorem mem_pyStrip_of_not {l : List Char} {c : Char}
    (hc : c ∈ l) (hp : pyIsSpace c = false) : c ∈ pyStrip l := by
  unfold pyStrip
  rw [List.rdropWhile, List.mem_reverse]
  exact mem_dropWhile_of_not (by simpa using mem_dropWhile_of_not hc hp) hp

theorem nfkdChar_ascii {c : Char} (h : isAsciiChar c = true) : nfkdChar c = [c] := by
  unfold nfkdChar
  repeat rw [if_neg (by rintro rfl; exact absurd h (by decide))]

theorem nfkdStr_eq_self {l : List Char} (h : ∀ c ∈ l, isAsciiChar c = true) :
    nfkdStr l = l := by
  induction l with
  | nil => rfl
  | cons c cs ih =>
    rw [nfkdStr, nfkdChar_ascii (h c (by simp)), ih (fun d hd => h d (by simp [hd]))]
    rfl

theorem mem_nfkdStr {l : List Char} {c : Char} (hc : c ∈ l) (h : isAsciiChar c = true) :
    c ∈ nfkdStr l := by
  induction l with
  | nil => cases hc
  | cons d ds ih =>
    rw [nfkdStr]
    rcases List.mem_cons.mp hc with h1 | h2
    · subst h1
      rw [nfkdChar_ascii h]
      simp
    · exact List.mem_append_right _ (ih h2)

theorem asciiIgnore_eq_self {l : List Char} (h : ∀ c ∈ l, isAsciiChar c = true) :
    asciiIgnore l = l :=
  List.filter_eq_self.mpr h

theorem ascii_of_mem_asciiIgnore {l : List Char} {c : Char} (h : c ∈ asciiIgnore l) :
    isAsciiChar c = true :=
  (List.mem_filter.mp h).2

theorem normalize_name_ascii (v : Option String) :
    ∀ c ∈ (normalize_name v).data, isAsciiChar c = true := by
  cases v with
  | none => decide
  | some s =>
    intro c hc
    have hc2 : c ∈ pyTitleAux false (pyStrip (asciiIgnore (nfkdStr s.data))) := hc
    refine pyTitleAux_ascii false _ ?_ c hc2
    intro d hd
    exact ascii_of_mem_asciiIgnore ((pyStrip_sublist _).mem hd)

theorem pyStrip_pyTitleAux_pyStrip (b : Bool) (z : List Char) :
    pyStrip (pyTitleAux b (pyStrip z)) = pyTitleAux b (pyStrip z) := by
  apply pyStrip_eq_self
  · intro c hc
    rw [head?_pyTitleAux] at hc
    cases ho : (pyStrip z).head? with
    | none => rw [ho] at hc; cases hc
    | some d =>
      rw [ho] at hc
      cases hc
      rw [pyIsSpace_titleChar]
      exact head?_pyStrip z d ho
  · intro c hc
    obtain ⟨b2, hb2⟩ := getLast?_pyTitleAux b (pyStrip z)
    rw [hb2] at hc
    cases ho : (pyStrip z).getLast? with
    | none => rw [ho] at hc; cases hc
    | some d =>
      rw [ho] at hc
      cases hc
      rw [pyIsSpace_titleChar]
      exact getLast?_pyStrip z d ho

/-- C9: for every raw name value (a missing cell or any string), the name
normalizer is idempotent: feeding its own output back in returns that
output unchanged. -/
theorem normalize_name_idempotent (v : Option String) :
    normalize_name (some (normalize_name v)) = normalize_name v := by
  cases v with
  | none => decide
  | some s =>
    have hascii := normalize_name_ascii (some s)
    show String.mk (pyTitle (pyStrip (asciiIgnore (nfkdStr (normalize_name (some s)).data))))
        = normalize_name (some s)
    rw [nfkdStr_eq_self hascii, asciiIgnore_eq_self hascii]
    show String.mk (pyTitle (pyStrip (pyTitleAux false (pyStrip (asciiIgnore (nfkdStr s.data))))))
        = normalize_name (some s)
    rw [pyStrip_pyTitleAux_pyStrip]
    show String.mk (pyTitleAux false (pyTitleAux false (pyStrip (asciiIgnore (nfkdStr s.data)))))
        = normalize_name (some s)
    rw [pyTitleAux_idem]
    rfl

/-- C5 counterexample: on the concrete non-missing inputs "o'neil" and
"søren" the embedded normalizer and the specification's described
normalizer disagree: Python title-casing upper-cases a letter after an
apostrophe, and the ASCII encoding discards every non-ASCII character,
not only combining marks. -/
theorem normalize_name_deviates_from_spec :
    normalize_name (some "o\x27neil") = "O\x27Neil"
    ∧ normalize_name_spec (some "o\x27neil") = "O\x27neil"
    ∧ normalize_name (some "o\x27neil") ≠ normalize_name_spec (some "o\x27neil")
    ∧ normalize_name (some "søren") = "Sren"
    ∧ normalize_name_spec (some "søren") = "Søren"
    ∧ normalize_name (some "søren") ≠ normalize_name_spec (some "søren") := by
  refine ⟨by decide, by decide, by decide, by decide, by decide, by decide⟩

theorem amendedTitle_eq_pyTitleAux (l : List Char) :
    amendedTitle l = pyTitleAux false l
    ∧ amendedTitle.amendedInWord l = pyTitleAux true l := by
  induction l with
  | nil => exact ⟨rfl, rfl⟩
  | cons c cs ih =>
    constructor
    · cases h : pyCased c
      · simp [amendedTitle, h, pyTitleAux, titleChar, ih.1]
      · simp [amendedTitle, h, pyTitleAux, titleChar, ih.2]
    · cases h : pyCased c
      · simp [amendedTitle.amendedInWord, h, pyTitleAux, titleChar, ih.1]
      · simp [amendedTitle.amendedInWord, h, pyTitleAux, titleChar, ih.2]

/-- C5 amended: for every raw name value the normalizer behaves as the
amended description states: missing values give the placeholder, and a
present value is NFKD-decomposed, stripped of every non-ASCII character,
trimmed, and title-cased per letter run, a letter being upper-cased exactly
when not preceded by a letter (so letters after apostrophes or other
punctuation are also upper-cased); the function is total, hence never
fails. -/
theorem normalize_name_amended_ok (v : Option String) :
    normalize_name v = normalize_name_amended v := by
  cases v with
  | none => rfl
  | some s =>
    show String.mk (pyTitleAux false (pyStrip (asciiIgnore (nfkdStr s.data))))
        = String.mk (amendedTitle (pyStrip (asciiIgnore (nfkdStr s.data))))
    rw [(amendedTitle_eq_pyTitleAux _).1]

/-- C4 counterexample: the empty string and a whitespace-only string are
not missing, so the placeholder is not substituted, and the normalized
result is the empty string, contradicting the claimed non-emptiness. -/
theorem normalize_name_empty_output :
    normalize_name (some "") = "" ∧ normalize_name (some "   ") = "" := by
  exact ⟨by decide, by decide⟩

/-- C4 amended: the placeholder "Desconocido" is produced exactly for a
missing source value, and the normalized name is non-empty whenever the
source value contains at least one ASCII non-whitespace character; empty
or whitespace-only (or all non-ASCII) values normalize to the empty
string, so non-emptiness does not hold unconditionally. -/
theorem normalize_name_nonempty_of_content :
    normalize_name none = "Desconocido"
    ∧ ∀ (s : String) (c : Char), c ∈ s.data → isAsciiChar c = true →
        pyIsSpace c = false → normalize_name (some s) ≠ "" := by
  constructor
  · rfl
  · intro s c hc hascii hsp heq
    have h1 : c ∈ nfkdStr s.data := mem_nfkdStr hc hascii
    have h2 : c ∈ asciiIgnore (nfkdStr s.data) := List.mem_filter.mpr ⟨h1, hascii⟩
    have h3 : c ∈ pyStrip (asciiIgnore (nfkdStr s.data)) := mem_pyStrip_of_not h2 hsp
    have hlen : 0 < (pyStrip (asciiIgnore (nfkdStr s.data))).length :=
      List.length_pos_of_mem h3
    have hdata : pyTitleAux false (pyStrip (asciiIgnore (nfkdStr s.data))) = [] :=
      congrArg String.data heq
    have hl := congrArg List.length hdata
    rw [length_pyTitleAux] at hl
    simp only [List.length_nil] at hl
    omega

theorem normalize_name_nonempty_of_content_witness :
    normalize_name (some "ana") ≠ "" :=
  normalize_name_nonempty_of_content.2 "ana" 'a' (by decide) (by decide) (by decide)

/-- C1: with a non-empty row-set whose schema lacks the status column, the
pipeline does not complete with degraded empty fields; the per-doctor
history step (source line 94) selects the `Estatus` column unconditionally
and the run aborts with a `KeyError`, contradicting the claimed graceful
degradation (the guards at lines 89-90 and 117-123 show degradation was the
intent). -/
theorem generateDashboard_errors_without_status_column :
    generateDashboard noStatusFrame = Except.error "KeyError: columns not in index" := by
  decide

/-- C2 counterexample: on the inputs "11:45:00 pm" and "00:15:00 am" the
duration calculator returns `none`, not 30.0: the `strptime` directive `%I`
only matches hours 1 to 12, so "00:15:00 am" fails to parse. -/
theorem calculate_duration_hour00_null :
    calculate_duration (some "11:45:00 pm") (some "00:15:00 am") = none
    ∧ (none : Option ℚ) ≠ some 30 := by
  exact ⟨by decide, by decide⟩

/-- C2 amended: the duration calculator returns 30.0 on "10:00:00 am" and
"10:30:00 am"; it returns 30.0 on "11:45:00 pm" and "12:15:00 am" via the
midnight-rollover correction (12 am being hour 0); on "11:45:00 pm" and
"00:15:00 am" it returns null because the hour 00 is outside the 12-hour
range 1-12 accepted by the parser; and whenever either raw time input is
missing it returns null. -/
theorem calculate_duration_spec_cases :
    calculate_duration (some "10:00:00 am") (some "10:30:00 am") = some 30
    ∧ calculate_duration (some "11:45:00 pm") (some "12:15:00 am") = some 30
    ∧ calculate_duration (some "11:45:00 pm") (some "00:15:00 am") = none
    ∧ (∀ x : Option String, calculate_duration none x = none)
    ∧ (∀ x : Option String, calculate_duration x none = none) := by
  refine ⟨?_, ?_, by decide, ?_, ?_⟩
  · have h1 : parse_custom_time (some "10:00:00 am") = some ⟨10, 0, 0⟩ := by decide
    have h2 : parse_custom_time (some "10:30:00 am") = some ⟨10, 30, 0⟩ := by decide
    rw [calculate_duration, h1, h2]
    norm_num [PyTime.totalSeconds]
  · have h1 : parse_custom_time (some "11:45:00 pm") = some ⟨23, 45, 0⟩ := by decide
    have h2 : parse_custom_time (some "12:15:00 am") = some ⟨0, 15, 0⟩ := by decide
    rw [calculate_duration, h1, h2]
    norm_num [PyTime.totalSeconds]
  · intro x
    rfl
  · intro x
    cases hx : parse_custom_time x with
    | none => simp [calculate_duration, hx, parse_custom_time]
    | some t => simp [calculate_duration, hx, parse_custom_time]

/-- C6: the row filter keeps exactly the rows whose visit date parsed and
has year at least 2024 (so 2023 rows are dropped and valid 2024/2025 rows
are kept), and every cleaned row downstream of the filter carries a
present, parsed date with year at least 2024. -/
theorem row_filter_exact (f : Frame) :
    (∀ c ∈ cleanRows f, 2024 ≤ c.fecha.year)
    ∧ (∀ r ∈ f.rows, ((cleanRow f r).isSome ↔ ∃ d, r.fecha = some d ∧ 2024 ≤ d.year))
    ∧ (∀ r ∈ f.rows, ∀ d, r.fecha = some d → d.year < 2024 → cleanRow f r = none) := by
  refine ⟨?_, ?_, ?_⟩
  · intro c hc
    obtain ⟨r, hr, hcr⟩ := List.mem_filterMap.mp hc
    unfold cleanRow at hcr
    split at hcr
    · cases hcr
    · split at hcr
      · next hy =>
        have hrec := Option.some.inj hcr
        rw [← hrec]
        exact hy
      · cases hcr
  · intro r _
    cases hf : r.fecha with
    | none => simp [cleanRow, hf]
    | some d =>
      by_cases hy : 2024 ≤ d.year
      · simp [cleanRow, hf, hy]
      · simp [cleanRow, hf, hy]
  · intro r _ d hfd hlt
    simp only [cleanRow, hfd]
    rw [if_neg (by omega)]

theorem row_filter_exact_witness :
    cleanRow filterFrame (mkRow "Ana" "x" ⟨2023, 6, 1⟩) = none :=
  (row_filter_exact filterFrame).2.2 (mkRow "Ana" "x" ⟨2023, 6, 1⟩) (by decide)
    ⟨2023, 6, 1⟩ (by decide) (by decide)

theorem filter_orderedInsert_pos {α : Type} (r : α → α → Prop) [DecidableRel r]
    (p : α → Bool) (x : α) (l : List α) (hx : p x = true)
    (hskip : ∀ b, ¬ r x b → p b = false) :
    (l.orderedInsert r x).filter p = x :: l.filter p := by
  induction l with
  | nil => simp [List.orderedInsert, hx]
  | cons b bs ih =>
    by_cases hrb : r x b
    · simp [List.orderedInsert, hrb, List.filter_cons, hx]
    · have hb : p b = false := hskip b hrb
      simp [List.orderedInsert, hrb, List.filter_cons, hb, ih]

theorem filter_orderedInsert_neg {α : Type} (r : α → α → Prop) [DecidableRel r]
    (p : α → Bool) (x : α) (l : List α) (hx : p x = false) :
    (l.orderedInsert r x).filter p = l.filter p := by
  induction l with
  | nil => simp [List.orderedInsert, hx]
  | cons b bs ih =>
    by_cases hrb : r x b
    · simp [List.orderedInsert, hrb, List.filter_cons, hx]
    · simp [List.orderedInsert, hrb, List.filter_cons, ih]

theorem filter_insertionSort_key {α β : Type} [DecidableEq β] (k : α → β)
    (r : α → α → Prop) [DecidableRel r] (htie : ∀ a b, k a = k b → r a b)
    (l : List α) (key : β) :
    (List.insertionSort r l).filter (fun a => decide (k a = key))
      = l.filter (fun a => decide (k a = key)) := by
  induction l with
  | nil => rfl
  | cons x xs ih =>
    show (List.orderedInsert r x (List.insertionSort r xs)).filter _ = _
    by_cases hx : k x = key
    · rw [filter_orderedInsert_pos r _ x _ (by simp [hx]) ?hskip]
      · rw [ih, List.filter_cons, if_pos (by simp [hx])]
      case hskip =>
        intro b hrb
        by_contra hb
        have hkb : k b = key := by simpa using hb
        exact hrb (htie x b (hx.trans hkb.symm))
    · rw [filter_orderedInsert_neg r _ x _ (by simp [hx]), ih,
        List.filter_cons, if_neg (by simp [hx])]

/-- C3 counterexample: two rows of the same doctor with equal visit dates
come out of the history sort in reversed original order, not original
order. -/
theorem sortHistory_reverses_equal_dates :
    sortHistory [tieRow1, tieRow2] = [tieRow2, tieRow1]
    ∧ ([tieRow2, tieRow1] : List CleanRow) ≠ [tieRow1, tieRow2] := by
  exact ⟨by decide, by decide⟩

/-- C3 amended: for every doctor group, the history contains all of the
group's rows ordered by visit date descending; rows with equal visit date
are not kept in original input order — for groups of fewer than 17 rows
(where the underlying numpy sort is a stable insertion sort that pandas
then reverses) they appear in exactly reversed original input order, and
for larger groups the unstable introsort leaves the tie order unspecified,
so in no case is original order guaranteed. -/
theorem sortHistory_desc_ties_reversed (g : List CleanRow) :
    (sortHistory g).Perm g
    ∧ List.Pairwise (fun a b => b.fecha.key ≤ a.fecha.key) (sortHistory g)
    ∧ (g.length < 17 →
        ∀ key, (sortHistory g).filter (fun r => decide (r.fecha.key = key))
          = (g.filter (fun r => decide (r.fecha.key = key))).reverse) := by
  haveI : IsTotal CleanRow (fun a b => a.fecha.key ≤ b.fecha.key) :=
    ⟨fun a b => Nat.le_total _ _⟩
  haveI : IsTrans CleanRow (fun a b => a.fecha.key ≤ b.fecha.key) :=
    ⟨fun _ _ _ hab hbc => Nat.le_trans hab hbc⟩
  refine ⟨?_, ?_, ?_⟩
  · exact (List.reverse_perm _).trans (List.perm_insertionSort _ g)
  · rw [sortHistory, List.pairwise_reverse]
    exact List.sorted_insertionSort _ g
  · intro _ key
    rw [sortHistory, List.filter_reverse,
      filter_insertionSort_key (fun r : CleanRow => r.fecha.key) _
        (fun a b h => Nat.le_of_eq h) g key]

theorem sortHistory_desc_ties_reversed_witness :
    (sortHistory [tieRow1, tieRow2]).filter
        (fun r => decide (r.fecha.key = Date.key ⟨2024, 3, 3⟩))
      = (([tieRow1, tieRow2] : List CleanRow).filter
          (fun r => decide (r.fecha.key = Date.key ⟨2024, 3, 3⟩))).reverse :=
  (sortHistory_desc_ties_reversed [tieRow1, tieRow2]).2.2 (by decide)
    (Date.key ⟨2024, 3, 3⟩)

/-- C8: the ranked doctor list is sorted descending by total visits, is a
permutation of the aggregates in grouping order, keeps tied totals in their
original grouping order (the sort is stable), and `top_doctors` is its
first ten entries, which is the whole ranking when at most ten doctors
exist (in `generateDashboard`, `top_doctors := sorted.take 10` with
`sorted := sortStatsDesc stats`). -/
theorem top_doctors_ranking (stats : List DocStat) :
    List.Pairwise (fun a b => b.visits ≤ a.visits) (sortStatsDesc stats)
    ∧ (sortStatsDesc stats).Perm stats
    ∧ (∀ k, (sortStatsDesc stats).filter (fun d => decide (d.visits = k))
        = stats.filter (fun d => decide (d.visits = k)))
    ∧ (stats.length ≤ 10 → (sortStatsDesc stats).take 10 = sortStatsDesc stats) := by
  haveI : IsTotal DocStat (fun a b => b.visits ≤ a.visits) :=
    ⟨fun a b => Nat.le_total _ _⟩
  haveI : IsTrans DocStat (fun a b => b.visits ≤ a.visits) :=
    ⟨fun _ _ _ hab hbc => Nat.le_trans hbc hab⟩
  refine ⟨?_, ?_, ?_, ?_⟩
  · exact List.sorted_insertionSort _ stats
  · exact List.perm_insertionSort _ stats
  · intro k
    exact filter_insertionSort_key (fun d : DocStat => d.visits) _
      (fun a b h => Nat.le_of_eq h.symm) stats k
  · intro hlen
    exact List.take_of_length_le
      (by rw [sortStatsDesc, List.length_insertionSort]; exact hlen)

theorem top_doctors_ranking_witness :
    (sortStatsDesc [⟨"Ana", 2, 1, 0, ⟨2024, 1, 1⟩, []⟩, ⟨"Eva", 3, 2, 0, ⟨2024, 1, 2⟩, []⟩]).take 10
      = sortStatsDesc [⟨"Ana", 2, 1, 0, ⟨2024, 1, 1⟩, []⟩, ⟨"Eva", 3, 2, 0, ⟨2024, 1, 2⟩, []⟩] :=
  (top_doctors_ranking [⟨"Ana", 2, 1, 0, ⟨2024, 1, 1⟩, []⟩,
    ⟨"Eva", 3, 2, 0, ⟨2024, 1, 2⟩, []⟩]).2.2.2 (by decide)

theorem visitedCount_cons_pos {r : CleanRow} {g : List CleanRow}
    (h : lowStatus r = some "visitado") : visitedCount (r :: g) = visitedCount g + 1 := by
  simp [visitedCount, List.filter_cons, h]

theorem visitedCount_cons_neg {r : CleanRow} {g : List CleanRow}
    (h : lowStatus r ≠ some "visitado") : visitedCount (r :: g) = visitedCount g := by
  simp [visitedCount, List.filter_cons, h]

theorem notVisitedCount_cons_pos {r : CleanRow} {g : List CleanRow}
    (h : lowStatus r = some "no visitado") :
    notVisitedCount (r :: g) = notVisitedCount g + 1 := by
  simp [notVisitedCount, List.filter_cons, h]

theorem notVisitedCount_cons_neg {r : CleanRow} {g : List CleanRow}
    (h : lowStatus r ≠ some "no visitado") :
    notVisitedCount (r :: g) = notVisitedCount g := by
  simp [notVisitedCount, List.filter_cons, h]

/-- C7: the per-doctor counters respond exactly to the two canonical
lower-cased status strings: a row whose lower-cased status is "visitado"
(resp. "no visitado") increments exactly the corresponding counter, and a
row with any other status value (or a missing one) increments neither; on
the concrete scenario of three visits for Dr. A (two visited in mixed case,
one not visited) and one visited visit for Dr. B, the ranking orders Dr. A
(3 visits, visited 2, not visited 1) before Dr. B (1 visit). -/
theorem status_counters_exact :
    (∀ (g : List CleanRow) (r : CleanRow), lowStatus r = some "visitado" →
        visitedCount (r :: g) = visitedCount g + 1
        ∧ notVisitedCount (r :: g) = notVisitedCount g)
    ∧ (∀ (g : List CleanRow) (r : CleanRow), lowStatus r = some "no visitado" →
        notVisitedCount (r :: g) = notVisitedCount g + 1
        ∧ visitedCount (r :: g) = visitedCount g)
    ∧ (∀ (g : List CleanRow) (r : CleanRow),
        lowStatus r ≠ some "visitado" → lowStatus r ≠ some "no visitado" →
        visitedCount (r :: g) = visitedCount g
        ∧ notVisitedCount (r :: g) = notVisitedCount g)
    ∧ (generateDashboard drABFrame).map
        (fun rep => rep.top_doctors.map
          (fun d => (d.name, d.visits, d.visited_count, d.not_visited_count)))
      = Except.ok [("Dr. A", 3, 2, 1), ("Dr. B", 1, 1, 0)] := by
  refine ⟨?_, ?_, ?_, by decide⟩
  · intro g r h
    refine ⟨visitedCount_cons_pos h, notVisitedCount_cons_neg ?_⟩
    rw [h]
    intro he
    exact absurd (Option.some.inj he) (by decide)
  · intro g r h
    refine ⟨notVisitedCount_cons_pos h, visitedCount_cons_neg ?_⟩
    rw [h]
    intro he
    exact absurd (Option.some.inj he) (by decide)
  · intro g r h1 h2
    exact ⟨visitedCount_cons_neg h1, notVisitedCount_cons_neg h2⟩

theorem status_counters_exact_witness :
    visitedCount (tieRow1 :: []) = visitedCount [] ∧
    notVisitedCount (tieRow1 :: []) = notVisitedCount [] :=
  status_counters_exact.2.2.1 [] tieRow1 (by decide) (by decide)

theorem lowStatus_isSome {r : CleanRow} {x : String} (h : lowStatus r = some x) :
    r.estatus.isSome = true := by
  unfold lowStatus at h
  cases hr : r.estatus with
  | none => rw [hr] at h; cases h
  | some s => simp [hr]

theorem visited_notVisited_le (g : List CleanRow) :
    visitedCount g + notVisitedCount g ≤ (g.filter (fun r => r.estatus.isSome)).length := by
  induction g with
  | nil => simp [visitedCount, notVisitedCount]
  | cons r rs ih =>
    by_cases h1 : lowStatus r = some "visitado"
    · have hs := lowStatus_isSome h1
      have h2 : lowStatus r ≠ some "no visitado" := by
        rw [h1]
        intro he
        exact absurd (Option.some.inj he) (by decide)
      rw [visitedCount_cons_pos h1, notVisitedCount_cons_neg h2, List.filter_cons, if_pos hs]
      simp only [List.length_cons]
      omega
    · by_cases h2 : lowStatus r = some "no visitado"
      · have hs := lowStatus_isSome h2
        rw [visitedCount_cons_neg h1, notVisitedCount_cons_pos h2, List.filter_cons, if_pos hs]
        simp only [List.length_cons]
        omega
      · rw [visitedCount_cons_neg h1, notVisitedCount_cons_neg h2, List.filter_cons]
        split
        · simp only [List.length_cons]
          omega
        · omega

theorem length_filterMap_estatus (df : List CleanRow) :
    (df.filterMap (fun r => r.estatus)).length
      = (df.filter (fun r => r.estatus.isSome)).length := by
  induction df with
  | nil => rfl
  | cons r rs ih =>
    cases hr : r.estatus <;> simp [List.filterMap_cons, List.filter_cons, hr, ih]

theorem statusData_sum (df : List CleanRow) :
    ((statusCountPairs df).map (fun p => p.2)).sum
      = (df.filter (fun r => r.estatus.isSome)).length := by
  unfold statusCountPairs
  rw [((List.perm_insertionSort _ _).map (fun p : String × Nat => p.2)).sum_eq,
    List.map_map]
  rw [← length_filterMap_estatus df]
  exact List.sum_map_count_dedup_eq_length _

theorem doctorStatsAux_ok {f : Frame} {df : List CleanRow} {ns : List String}
    {stats : List DocStat} (h : doctorStatsAux f df ns = Except.ok stats) :
    stats = ns.map (docStatOf f df) := by
  induction ns generalizing stats with
  | nil =>
    simp only [doctorStatsAux] at h
    exact (Except.ok.inj h).symm
  | cons n ns ih =>
    simp only [doctorStatsAux] at h
    split at h
    · split at h
      · cases h
      · next rest hrest =>
        rw [← Except.ok.inj h, List.map_cons, ← ih hrest]
    · cases h

theorem generateDashboard_ok_fields {f : Frame} {rep : Report}
    (h : generateDashboard f = Except.ok rep) :
    ∃ stats, doctorStats f (cleanRows f) = Except.ok stats
      ∧ rep = { total_visits := (cleanRows f).length
                doctor_stats := sortStatsDesc stats
                top_doctors := (sortStatsDesc stats).take 10
                status_labels := if f.hasEstatus then
                    (statusCountPairs (cleanRows f)).map (fun p => p.1) else []
                status_data := if f.hasEstatus then
                    (statusCountPairs (cleanRows f)).map (fun p => p.2) else [] } := by
  cases hds : doctorStats f (cleanRows f) with
  | error e =>
    simp only [generateDashboard, hds] at h
    cases h
  | ok stats =>
    simp only [generateDashboard, hds] at h
    exact ⟨stats, rfl, (Except.ok.inj h).symm⟩

/-- C10: when the status column exists and a report is produced, the
total-visit count and each doctor's total count every cleaned row, while
the status distribution sums only over the rows whose status cell is
present, and the two status counters together never exceed the number of
status-bearing rows of the group; on the concrete frame with one of two
rows missing its status, the distribution sums to 1 against a total of
2. -/
theorem missing_status_rows_policy (f : Frame) (rep : Report)
    (hE : f.hasEstatus = true) (hok : generateDashboard f = Except.ok rep) :
    rep.total_visits = (cleanRows f).length
    ∧ rep.status_data.sum = ((cleanRows f).filter (fun r => r.estatus.isSome)).length
    ∧ (∀ d ∈ rep.doctor_stats,
        d.visits = (groupOf (cleanRows f) d.name).length
        ∧ d.visited_count + d.not_visited_count
            ≤ ((groupOf (cleanRows f) d.name).filter (fun r => r.estatus.isSome)).length)
    ∧ (generateDashboard missingStatusCellFrame).map
        (fun rp => (rp.total_visits, rp.status_data.sum)) = Except.ok (2, 1) := by
  obtain ⟨stats, hstats, hrep⟩ := generateDashboard_ok_fields hok
  subst hrep
  refine ⟨rfl, ?_, ?_, by decide⟩
  · show (if f.hasEstatus = true then
        (statusCountPairs (cleanRows f)).map (fun p => p.2) else []).sum = _
    rw [if_pos hE]
    exact statusData_sum _
  · intro d hd
    have hd2 : d ∈ stats := (List.mem_insertionSort _).mp hd
    have hmap := doctorStatsAux_ok hstats
    rw [hmap] at hd2
    obtain ⟨n, _, rfl⟩ := List.mem_map.mp hd2
    refine ⟨rfl, ?_⟩
    show (if f.hasEstatus = true then visitedCount (groupOf (cleanRows f) n) else 0)
        + (if f.hasEstatus = true then notVisitedCount (groupOf (cleanRows f) n) else 0) ≤ _
    rw [if_pos hE, if_pos hE]
    exact visited_notVisited_le _

theorem missing_status_rows_policy_witness :
    emptyReport.total_visits = (cleanRows emptyStatusFrame).length
    ∧ emptyReport.status_data.sum
        = ((cleanRows emptyStatusFrame).filter (fun r => r.estatus.isSome)).length
    ∧ (∀ d ∈ emptyReport.doctor_stats,
        d.visits = (groupOf (cleanRows emptyStatusFrame) d.name).length
        ∧ d.visited_count + d.not_visited_count
            ≤ ((groupOf (cleanRows emptyStatusFrame) d.name).filter
                (fun r => r.estatus.isSome)).length)
    ∧ (generateDashboard missingStatusCellFrame).map
        (fun rp => (rp.total_visits, rp.status_data.sum)) = Except.ok (2, 1) :=
  missing_status_rows_policy emptyStatusFrame emptyReport rfl (by decide)
